import Mathlib

set_option maxRecDepth 100000

/-!
Verification development for the MooseFS Prometheus exporter
(src/moosefs_exporter.py).

The exporter pipes administrative CLI text through regular-expression
rules into a registry of labeled gauges.  We embed the relevant parts
shallowly:

* a backtracking matcher for the exact regular expressions appearing in
  the source (the patterns use only literals, the classes \d \s \S \w .,
  greedy + and *, and flat capturing groups, so the token language below
  covers them exactly);
* the numeric coercions int() and float() restricted to
  sign/digits/decimal-point forms (no exponent, infinity or nan tokens --
  none of those shapes can be produced by the capture groups involved);
* the gauge registry as a function from gauge keys (metric identity plus
  label values) to an optional rational value; Python floats are modeled
  as rationals, exact for every value manipulated here (all inputs are
  short decimal fractions scaled by powers of two);
* each collector (collect_system_metrics, collect_chunkserver_metrics,
  collect_io_metrics), the command runner _execute_command, and the
  per-cycle driver collect_all_metrics.
-/

/-- Single-character classes of the regular expressions in the source:
digit is Python \d, space is \s, word is \w, nonspace is \S and anyc is
the dot (any character except newline), in their ASCII readings. -/
inductive CClass
  | digit
  | space
  | word
  | nonspace
  | anyc
deriving DecidableEq, Repr

/-- Python \s over ASCII: space, tab, newline, carriage return, vertical
tab and form feed. -/
def isSpaceCh (c : Char) : Bool :=
  c = ' ' || c = '\t' || c = '\n' || c = '\r' || c = '\x0b' || c = '\x0c'

/-- Membership test of a character in a class. -/
def CClass.mem : CClass → Char → Bool
  | .digit, c => c.isDigit
  | .space, c => isSpaceCh c
  | .word, c => c.isAlpha || c.isDigit || c = '_'
  | .nonspace, c => !isSpaceCh c
  | .anyc, c => c ≠ '\n'

/-- Tokens of the regular-expression subset used by the source: literal
characters, a single class character, greedy plus and star over a class,
and markers opening and closing a capturing group.  Every pattern in the
source is a flat sequence of these tokens. -/
inductive RTok
  | lit (c : Char)
  | cls (k : CClass)
  | plus (k : CClass)
  | star (k : CClass)
  | gopen
  | gclose
deriving DecidableEq, Repr

/-- Backtracking matcher.  mseq fuel toks s pos opens caps tries to match
the token sequence toks against the suffix s of the subject (pos is the
absolute position of s in the subject); opens holds the positions of
currently open groups and caps the completed capture intervals.  On
success it returns the end position and the captures.  Greedy repetition
is realized by preferring to consume one more class character over
moving past the star, which unfolds into the longest-first backtracking
order of the Python engine.  The fuel only bounds the recursion depth;
every call either drops a token or consumes a character (a plus becomes
a star after consuming its mandatory character), so any fuel beyond the
token count plus the subject length is enough. -/
def mseq : Nat → List RTok → List Char → Nat → List Nat → List (Nat × Nat) →
    Option (Nat × List (Nat × Nat))
  | 0, _, _, _, _, _ => none
  | fuel + 1, toks, s, pos, opens, caps =>
    match toks with
    | [] => some (pos, caps)
    | .lit c :: rest =>
      match s with
      | [] => none
      | d :: s2 => if d = c then mseq fuel rest s2 (pos + 1) opens caps else none
    | .cls k :: rest =>
      match s with
      | [] => none
      | d :: s2 => if k.mem d then mseq fuel rest s2 (pos + 1) opens caps else none
    | .gopen :: rest => mseq fuel rest s pos (pos :: opens) caps
    | .gclose :: rest =>
      match opens with
      | [] => none
      | st :: opens2 => mseq fuel rest s pos opens2 (caps ++ [(st, pos)])
    | .plus k :: rest =>
      match s with
      | [] => none
      | d :: s2 =>
        if k.mem d then mseq fuel (.star k :: rest) s2 (pos + 1) opens caps
        else none
    | .star k :: rest =>
      match s with
      | [] => mseq fuel rest s pos opens caps
      | d :: s2 =>
        if k.mem d then
          match mseq fuel (.star k :: rest) s2 (pos + 1) opens caps with
          | some res => some res
          | none => mseq fuel rest s pos opens caps
        else mseq fuel rest s pos opens caps

/-- Scan for the leftmost match, as re.search does: try each start
position from the left; on the first success return the captures. -/
def searchAux (p : List RTok) : Nat → List Char → Nat → Option (List (Nat × Nat))
  | 0, _, _ => none
  | fuel + 1, s, pos =>
    match mseq (p.length + s.length + 1) p s pos [] [] with
    | some (_, caps) => some caps
    | none =>
      match s with
      | [] => none
      | _ :: s2 => searchAux p fuel s2 (pos + 1)

/-- All non-overlapping matches from the left, as re.findall does:
after each match continue at its end (advancing one character on an
empty-width match). -/
def scanAllAux (p : List RTok) : Nat → List Char → Nat → List (List (Nat × Nat))
  | 0, _, _ => []
  | fuel + 1, s, pos =>
    match mseq (p.length + s.length + 1) p s pos [] [] with
    | some (en, caps) =>
      if pos < en then caps :: scanAllAux p fuel (s.drop (en - pos)) en
      else
        match s with
        | [] => [caps]
        | _ :: s2 => caps :: scanAllAux p fuel s2 (pos + 1)
    | none =>
      match s with
      | [] => []
      | _ :: s2 => scanAllAux p fuel s2 (pos + 1)

/-- The substring of the subject described by a capture interval. -/
def capStr (cs : List Char) (pr : Nat × Nat) : String :=
  String.mk ((cs.drop pr.1).take (pr.2 - pr.1))

/-- re.search followed by group(1): the first capture of the leftmost
match, if any. -/
def reSearchG1 (p : List RTok) (text : String) : Option String :=
  (searchAux p (text.data.length + 1) text.data 0).bind fun caps =>
    caps.head?.map (capStr text.data)

/-- re.findall: the capture tuples of all non-overlapping matches. -/
def reFindall (p : List RTok) (text : String) : List (List String) :=
  (scanAllAux p (text.data.length + 1) text.data 0).map fun caps =>
    caps.map (capStr text.data)

/-- Literal text as a token sequence. -/
def lits (s : String) : List RTok := s.data.map RTok.lit

/-- True when every character of the list is a decimal digit. -/
def allDigits (cs : List Char) : Bool := cs.all Char.isDigit

/-- Numeric value of a digit string. -/
def digitsVal (cs : List Char) : Nat :=
  cs.foldl (fun acc c => acc * 10 + (c.toNat - 48)) 0

/-- Python int() on the strings that can reach it here: a nonempty
run of decimal digits (the relevant capture groups are all of shape
\d+, which produce exactly such strings). -/
def pyIntN (s : String) : Option Nat :=
  if s.data ≠ [] ∧ allDigits s.data then some (digitsVal s.data) else none

/-- int() followed by the implicit conversion to the float value a gauge
stores: the same nonnegative integer, as a rational. -/
def pyInt (s : String) : Option ℚ :=
  (pyIntN s).map fun n => (n : ℚ)

/-- Split a character list at its decimal point: none if there is more
than one point, otherwise the digits before and after it. -/
def splitDot : List Char → Option (List Char × List Char)
  | [] => some ([], [])
  | c :: t =>
    if c = '.' then (if t.contains '.' then none else some ([], t))
    else (splitDot t).map fun pr => (c :: pr.1, pr.2)

/-- Python float() restricted to sign/digits/decimal-point forms: an
optional sign, then digits with at most one decimal point and at least
one digit overall.  Exponent, infinity and nan spellings are outside the
shapes reachable from the patterns of the source and are not modeled.
A second decimal point (as in a version string like 4.10.0) fails, which
is exactly the failure mode the source exhibits. -/
def pySign : List Char → Bool × List Char
  | [] => (false, [])
  | c :: t =>
    if c = '-' then (true, t)
    else if c = '+' then (false, t)
    else (false, c :: t)

def pyFloat (s : String) : Option ℚ :=
  let signed : Bool × List Char := pySign s.data
  match splitDot signed.2 with
  | none => none
  | some (a, b) =>
    if allDigits a ∧ allDigits b ∧ (a ≠ [] ∨ b ≠ []) then
      let n : Nat := digitsVal a * 10 ^ b.length + digitsVal b
      some (mkRat (if signed.1 then -(n : Int) else (n : Int)) (10 ^ b.length))
    else none

/-- Scaling of a rational by a natural constant, written on numerator and
denominator.  scaleQ_eq_mul below proves it equal to multiplication; the
spelling keeps the converters computable by plain reduction. -/
def scaleQ (q : ℚ) (n : Nat) : ℚ := mkRat (q.num * n) q.den

/-! ## Gauge registry -/

/-- The unlabeled gauges created in the constructor, in the groups of the
source: system, space and object metrics. -/
inductive ScalarMetric
  | version
  | ramUsed
  | cpuTotal
  | cpuSystem
  | cpuUser
  | totalSpace
  | freeSpace
  | trashSpace
  | totalObjects
  | directories
  | files
  | chunks
deriving DecidableEq, Repr

/-- The chunkserver gauges, labeled by ip and server id. -/
inductive CSMetric
  | csChunks
  | diskUsed
  | diskTotal
  | diskUsagePercent
deriving DecidableEq, Repr

/-- The throughput gauges, labeled by ip. -/
inductive IOMetric
  | readSpeed
  | writeSpeed
deriving DecidableEq, Repr

/-- A gauge key: metric identity together with its label values.  One key
names one time series of the exposed registry. -/
inductive GKey
  | scalar (m : ScalarMetric)
  | cs (m : CSMetric) (ip : String) (sid : String)
  | io (m : IOMetric) (ip : String)
deriving DecidableEq, Repr

/-- The registry: every key holds either the last value written by set or
nothing if it was never written.  Values are rationals, exact stand-ins
for the floats of prometheus_client on every value handled here. -/
def Registry := GKey → Option ℚ

/-- Gauge.set on one key: an absolute overwrite of that key only. -/
def Registry.set (r : Registry) (k : GKey) (v : ℚ) : Registry :=
  fun k2 => if k2 = k then some v else r k2

/-- The registry at process start: nothing has been written. -/
def emptyRegistry : Registry := fun _ => none

/-- A batch of set calls, applied left to right. -/
def applyUpdates (U : List (GKey × ℚ)) (r : Registry) : Registry :=
  U.foldl (fun r p => r.set p.1 p.2) r

/-! ## Field rules of collect_system_metrics -/

/-- The converters appearing in metrics_map, defunctionalized: float,
the MiB and TiB lambdas, and int. -/
inductive Conv
  | toFloat
  | mibToBytes
  | tibToBytes
  | toInt
deriving DecidableEq, Repr

/-- Run a converter on a captured string; none models the exception the
Python converter raises on a malformed argument. -/
def Conv.run : Conv → String → Option ℚ
  | .toFloat, s => pyFloat s
  | .mibToBytes, s => (pyIntN s).map (fun n => ((n * 1048576 : Nat) : ℚ))
  | .tibToBytes, s => (pyFloat s).map (fun q => scaleQ q 1099511627776)
  | .toInt, s => pyInt s

/-- One entry of metrics_map: pattern, converter and target gauge. -/
structure FieldRule where
  pat : List RTok
  conv : Conv
  gauge : ScalarMetric
deriving DecidableEq, Repr

/-- The separator \s+:\s+ common to all field patterns. -/
def colonSep : List RTok := [.plus .space, .lit ':', .plus .space]

/-- A capturing group (\d+). -/
def grpInt : List RTok := [.gopen, .plus .digit, .gclose]

/-- A capturing group of a decimal fraction (\d+\.\d+). -/
def grpDec : List RTok := [.gopen, .plus .digit, .lit '.', .plus .digit, .gclose]

/-- A capturing group of a dotted quad (an IPv4 address). -/
def grpQuad : List RTok :=
  [.gopen, .plus .digit, .lit '.', .plus .digit, .lit '.', .plus .digit,
   .lit '.', .plus .digit, .gclose]

/-- master version\s+:\s+(\S+) -/
def patVersion : List RTok :=
  lits ("master version") ++ colonSep ++ [.gopen, .plus .nonspace, .gclose]

/-- RAM used\s+:\s+(\d+)\s*MiB -/
def patRam : List RTok :=
  lits ("RAM used") ++ colonSep ++ grpInt ++ [.star .space] ++ lits ("MiB")

/-- CPU used\s+:\s+(\d+\.\d+)% -/
def patCpuTotal : List RTok :=
  lits ("CPU used") ++ colonSep ++ grpDec ++ [.lit '%']

/-- CPU used \(system\)\s+:\s+(\d+\.\d+)% -/
def patCpuSystem : List RTok :=
  lits ("CPU used (system)") ++ colonSep ++ grpDec ++ [.lit '%']

/-- CPU used \(user\)\s+:\s+(\d+\.\d+)% -/
def patCpuUser : List RTok :=
  lits ("CPU used (user)") ++ colonSep ++ grpDec ++ [.lit '%']

/-- total space\s+:\s+(\d+\.\d+)\s*TiB -/
def patTotalSpace : List RTok :=
  lits ("total space") ++ colonSep ++ grpDec ++ [.star .space] ++ lits ("TiB")

/-- free space\s+:\s+(\d+\.\d+)\s*TiB -/
def patFreeSpace : List RTok :=
  lits ("free space") ++ colonSep ++ grpDec ++ [.star .space] ++ lits ("TiB")

/-- trash space\s+:\s+(\d+)\s*MiB -/
def patTrashSpace : List RTok :=
  lits ("trash space") ++ colonSep ++ grpInt ++ [.star .space] ++ lits ("MiB")

/-- all fs objects\s+:\s+(\d+) -/
def patTotalObjects : List RTok :=
  lits ("all fs objects") ++ colonSep ++ grpInt

/-- directories\s+:\s+(\d+) -/
def patDirectories : List RTok :=
  lits ("directories") ++ colonSep ++ grpInt

/-- files\s+:\s+(\d+) -/
def patFiles : List RTok :=
  lits ("files") ++ colonSep ++ grpInt

/-- chunks\s+:\s+(\d+) -/
def patChunks : List RTok :=
  lits ("chunks") ++ colonSep ++ grpInt

/-- metrics_map of collect_system_metrics, in dict insertion order. -/
def metricsMap : List FieldRule :=
  [⟨patVersion, .toFloat, .version⟩,
   ⟨patRam, .mibToBytes, .ramUsed⟩,
   ⟨patCpuTotal, .toFloat, .cpuTotal⟩,
   ⟨patCpuSystem, .toFloat, .cpuSystem⟩,
   ⟨patCpuUser, .toFloat, .cpuUser⟩,
   ⟨patTotalSpace, .tibToBytes, .totalSpace⟩,
   ⟨patFreeSpace, .tibToBytes, .freeSpace⟩,
   ⟨patTrashSpace, .mibToBytes, .trashSpace⟩,
   ⟨patTotalObjects, .toInt, .totalObjects⟩,
   ⟨patDirectories, .toInt, .directories⟩,
   ⟨patFiles, .toInt, .files⟩,
   ⟨patChunks, .toInt, .chunks⟩]

/-- The body of the rule loop of collect_system_metrics: search for the
pattern; on a match, convert group(1); on conversion success set the
gauge, on failure log a warning and leave the gauge alone; on no match
leave the gauge alone. -/
def fieldStep (s : String) (r : Registry) (rule : FieldRule) : Registry :=
  match reSearchG1 rule.pat s with
  | none => r
  | some cap =>
    match rule.conv.run cap with
    | none => r
    | some v => r.set (.scalar rule.gauge) v

/-- The rule loop over an arbitrary rule list. -/
def applyFieldRulesOf (L : List FieldRule) (s : String) (r : Registry) : Registry :=
  L.foldl (fieldStep s) r

/-- The rule loop of collect_system_metrics over metrics_map. -/
def applyFieldRules (s : String) (r : Registry) : Registry :=
  applyFieldRulesOf metricsMap s r

/-- The outcome of one rule in isolation: captured group converted, if
both the search and the conversion succeed. -/
def ruleResult (s : String) (rule : FieldRule) : Option ℚ :=
  (reSearchG1 rule.pat s).bind fun cap => rule.conv.run cap

/-- The update list of one extraction pass: one (key, value) pair per
rule whose pattern matches and whose conversion succeeds. -/
def fieldUpdatesOf (L : List FieldRule) (s : String) : List (GKey × ℚ) :=
  L.filterMap fun rule => (ruleResult s rule).map fun v => (GKey.scalar rule.gauge, v)

/-- The update list of collect_system_metrics. -/
def fieldUpdates (s : String) : List (GKey × ℚ) :=
  fieldUpdatesOf metricsMap s

/-- collect_system_metrics: on a missing or empty command output return
False with the registry untouched; otherwise run every rule and return
True. -/
def collectSystemMetrics (output : Option String) (r : Registry) : Bool × Registry :=
  match output with
  | none => (false, r)
  | some s => if s = "" then (false, r) else (true, applyFieldRules s r)

/-! ## collect_chunkserver_metrics -/

/-- Bytes per GiB. -/
def gibN : Nat := 1073741824

/-- Bytes per MiB. -/
def mibN : Nat := 1048576

/-- A dotted triple \d+\.\d+\.\d+ (the version column, not captured). -/
def trip : List RTok :=
  [.plus .digit, .lit '.', .plus .digit, .lit '.', .plus .digit]

/-- The chunkserver row pattern of collect_chunkserver_metrics:
(\d+\.\d+\.\d+\.\d+)\s+\d+\s+(\d+)\s+[-]\s+\d+\.\d+\.\d+\s+\d+\s+\w+\s+\w+\s+(\d+)\s+(\d+\.\d+)\s*GiB\s+(\d+)\s*GiB\s+(\d+\.\d+)% -/
def patCS : List RTok :=
  grpQuad ++ [.plus .space, .plus .digit, .plus .space] ++ grpInt ++
  [.plus .space, .lit '-', .plus .space] ++ trip ++
  [.plus .space, .plus .digit, .plus .space, .plus .word, .plus .space,
   .plus .word, .plus .space] ++ grpInt ++ [.plus .space] ++ grpDec ++
  [.star .space] ++ lits ("GiB") ++ [.plus .space] ++ grpInt ++
  [.star .space] ++ lits ("GiB") ++ [.plus .space] ++ grpDec ++ [.lit '%']

/-- The set calls performed for one matched row: unpack the six captures,
convert them (chunks and total via int, used and percent via float, the
disk sizes scaled from GiB to bytes), and write the four gauges labeled
with ip and server id.  none models the exception a failed unpack or
conversion would raise, which the outer handler of the collector turns
into a False outcome. -/
def rowUpdates (caps : List String) : Option (List (GKey × ℚ)) :=
  match caps with
  | [ip, sid, chunks, used, total, pct] =>
    match pyInt chunks, pyFloat used, pyIntN total, pyFloat pct with
    | some c, some u, some t, some p =>
      some [(.cs .csChunks ip sid, c),
            (.cs .diskUsed ip sid, scaleQ u gibN),
            (.cs .diskTotal ip sid, ((t * gibN : Nat) : ℚ)),
            (.cs .diskUsagePercent ip sid, p)]
    | _, _, _, _ => none
  | _ => none

/-- The row loop of collect_chunkserver_metrics: rows are applied in
order; a row whose unpacking or conversion raises stops the loop with a
False outcome, keeping the writes of the earlier rows. -/
def csLoop : List (List String) → Registry → Bool × Registry
  | [], r => (true, r)
  | caps :: rest, r =>
    match rowUpdates caps with
    | none => (false, r)
    | some u => csLoop rest (applyUpdates u r)

/-- collect_chunkserver_metrics: on a missing or empty command output
return False with the registry untouched; otherwise run the row loop
over every match of the row pattern. -/
def collectChunkserverMetrics (output : Option String) (r : Registry) : Bool × Registry :=
  match output with
  | none => (false, r)
  | some s => if s = "" then (false, r) else csLoop (reFindall patCS s) r

/-! ## collect_io_metrics -/

/-- The throughput row pattern of collect_io_metrics:
(\d+\.\d+\.\d+\.\d+):\d+:.* (\d+\.\d+)\s*GiB/s\s+(\d+\.\d+)\s*MiB/s -/
def patIO : List RTok :=
  grpQuad ++ [.lit ':', .plus .digit, .lit ':', .star .anyc, .lit ' '] ++
  grpDec ++ [.star .space] ++ lits ("GiB/s") ++ [.plus .space] ++
  grpDec ++ [.star .space] ++ lits ("MiB/s")

/-- The set calls for one throughput row: read speed scaled from GiB/s
and write speed from MiB/s to bytes per second, labeled by ip. -/
def rowUpdatesIO (caps : List String) : Option (List (GKey × ℚ)) :=
  match caps with
  | [ip, readG, writeM] =>
    match pyFloat readG, pyFloat writeM with
    | some rg, some wm =>
      some [(.io .readSpeed ip, scaleQ rg gibN), (.io .writeSpeed ip, scaleQ wm mibN)]
    | _, _ => none
  | _ => none

/-- The row loop of collect_io_metrics. -/
def ioLoop : List (List String) → Registry → Bool × Registry
  | [], r => (true, r)
  | caps :: rest, r =>
    match rowUpdatesIO caps with
    | none => (false, r)
    | some u => ioLoop rest (applyUpdates u r)

/-- collect_io_metrics. -/
def collectIOMetrics (output : Option String) (r : Registry) : Bool × Registry :=
  match output with
  | none => (false, r)
  | some s => if s = "" then (false, r) else ioLoop (reFindall patIO s) r

/-! ## _execute_command and collect_all_metrics -/

/-- What the spawned process did: ran past the deadline, failed to spawn
(or any other exception of subprocess.run), or completed with an exit
status and captured standard output. -/
inductive ProcResult
  | timeout
  | spawnError (msg : String)
  | completed (returncode : Int) (stdout : String)
deriving DecidableEq, Repr

/-- _execute_command: the returned text and the error log lines emitted.
A timeout and a spawn error are caught and logged with distinct
messages; a completed process yields its stdout when the exit status is
zero and a silent None otherwise; no case raises to the caller. -/
def executeCommand (command : String) : ProcResult → Option String × List String
  | .timeout => (none, [("Command timed out: " ++ command)])
  | .spawnError msg => (none, [("Command execution error: " ++ msg)])
  | .completed rc out => if rc = 0 then (some out, []) else (none, [])

/-- collect_all_metrics, with the three command outputs of the cycle as
inputs: each collector runs in turn on the registry left by the previous
one, and the three outcomes are reported. -/
def collectAllMetrics (sysOut csOut ioOut : Option String) (r : Registry) :
    List Bool × Registry :=
  let s := collectSystemMetrics sysOut r
  let c := collectChunkserverMetrics csOut s.2
  let i := collectIOMetrics ioOut c.2
  ([s.1, c.1, i.1], i.2)

/-- The guard of the cycle loop: each collector invocation is wrapped so
that an exception is logged (reported as none here) and the loop moves
on to the next collector with the registry as the failed collector left
it. -/
def runCollectorsGuarded :
    List (Registry → Except String Bool × Registry) → Registry →
    List (Option Bool) × Registry
  | [], r => ([], r)
  | f :: fs, r =>
    let step := f r
    let rest := runCollectorsGuarded fs step.2
    ((match step.1 with
      | .ok b => some b
      | .error _ => none) :: rest.1, rest.2)

/-- A three-row inventory table: the first and third rows are well
formed; the second row carries a fractional total-space field, 300.5
GiB, where the row pattern requires an integral number of GiB. -/
def threeRowTable : String :=
  "10.0.0.5 1 000100 - 4.10.0 0 OK OK 1500 120.50 GiB 200 GiB 60.25%\n" ++
  "10.0.0.6 1 000101 - 4.10.0 0 OK OK 1600 130.50 GiB 300.5 GiB 61.25%\n" ++
  "10.0.0.7 1 000102 - 4.10.0 0 OK OK 1700 140.50 GiB 400 GiB 62.25%"

/-! ## Views used by the statements and proofs -/

/-- The value the last update of a batch assigns to a key, if any. -/
def lookupLast : List (GKey × ℚ) → GKey → Option ℚ
  | [], _ => none
  | p :: U, k =>
    match lookupLast U k with
    | some v => some v
    | none => if p.1 = k then some p.2 else none

/-- The update batch of the chunkserver row loop together with its
outcome: rows contribute their four writes in order until the first row
whose unpacking or conversion fails, which ends the batch with a False
outcome. -/
def csUpdates : List (List String) → List (GKey × ℚ) × Bool
  | [] => ([], true)
  | caps :: rest =>
    match rowUpdates caps with
    | none => ([], false)
    | some u => (u ++ (csUpdates rest).1, (csUpdates rest).2)

/-! ## General lemmas about update batches -/

theorem Registry.set_apply (r : Registry) (k : GKey) (v : ℚ) (k2 : GKey) :
    r.set k v k2 = if k2 = k then some v else r k2 := rfl

theorem applyUpdates_nil (r : Registry) : applyUpdates [] r = r := rfl

theorem applyUpdates_cons (p : GKey × ℚ) (U : List (GKey × ℚ)) (r : Registry) :
    applyUpdates (p :: U) r = applyUpdates U (r.set p.1 p.2) := rfl

theorem applyUpdates_append (U V : List (GKey × ℚ)) (r : Registry) :
    applyUpdates (U ++ V) r = applyUpdates V (applyUpdates U r) :=
  List.foldl_append _ _ _ _

theorem applyUpdates_apply (U : List (GKey × ℚ)) (r : Registry) (k : GKey) :
    applyUpdates U r k =
      match lookupLast U k with
      | some v => some v
      | none => r k := by
  induction U generalizing r with
  | nil => simp [applyUpdates_nil, lookupLast]
  | cons p U ih =>
    rw [applyUpdates_cons, ih]
    simp only [lookupLast]
    cases h : lookupLast U k with
    | some v => simp
    | none =>
      simp only [Registry.set_apply]
      by_cases hk : k = p.1
      · subst hk
        simp
      · rw [if_neg hk, if_neg (fun h2 => hk (Eq.symm h2))]

theorem applyUpdates_idem (U : List (GKey × ℚ)) (r : Registry) :
    applyUpdates U (applyUpdates U r) = applyUpdates U r := by
  funext k
  rw [applyUpdates_apply, applyUpdates_apply]
  cases h : lookupLast U k <;> simp

theorem lookupLast_eq_none (U : List (GKey × ℚ)) (k : GKey)
    (h : ∀ p ∈ U, p.1 ≠ k) : lookupLast U k = none := by
  induction U with
  | nil => rfl
  | cons p U ih =>
    simp only [lookupLast]
    rw [ih (fun q hq => h q (List.mem_cons_of_mem p hq))]
    simp [h p (List.mem_cons_self p U)]

/-! ## Lemmas about the field-rule pass -/

theorem fieldStep_eq (s : String) (r : Registry) (rule : FieldRule) :
    fieldStep s r rule =
      match ruleResult s rule with
      | none => r
      | some v => r.set (GKey.scalar rule.gauge) v := by
  unfold fieldStep ruleResult
  cases h : reSearchG1 rule.pat s with
  | none => rfl
  | some cap =>
    cases hc : rule.conv.run cap with
    | none => rfl
    | some v => rfl

theorem applyFieldRulesOf_cons (rule : FieldRule) (L : List FieldRule)
    (s : String) (r : Registry) :
    applyFieldRulesOf (rule :: L) s r = applyFieldRulesOf L s (fieldStep s r rule) := rfl

theorem applyFieldRulesOf_eq_applyUpdates (L : List FieldRule) (s : String) (r : Registry) :
    applyFieldRulesOf L s r = applyUpdates (fieldUpdatesOf L s) r := by
  induction L generalizing r with
  | nil => rfl
  | cons rule L ih =>
    rw [applyFieldRulesOf_cons, ih, fieldStep_eq]
    simp only [fieldUpdatesOf, List.filterMap_cons]
    cases hr : ruleResult s rule with
    | none => rfl
    | some v => rfl

theorem mem_fieldUpdatesOf (L : List FieldRule) (s : String) (p : GKey × ℚ)
    (h : p ∈ fieldUpdatesOf L s) :
    ∃ rule ∈ L, ruleResult s rule = some p.2 ∧ p.1 = GKey.scalar rule.gauge := by
  rcases List.mem_filterMap.mp h with ⟨rule, hmem, heq⟩
  cases hr : ruleResult s rule with
  | none =>
    rw [hr, Option.map_none'] at heq
    exact Option.noConfusion heq
  | some v =>
    rw [hr, Option.map_some'] at heq
    have heq2 : (GKey.scalar rule.gauge, v) = p := Option.some_inj.mp heq
    exact ⟨rule, hmem, by rw [hr, ← heq2], by rw [← heq2]⟩

theorem lookupLast_fieldUpdatesOf_of_unmatched (L : List FieldRule) (s : String)
    (g : ScalarMetric) (h : ∀ rule ∈ L, rule.gauge = g → ruleResult s rule = none) :
    lookupLast (fieldUpdatesOf L s) (GKey.scalar g) = none := by
  apply lookupLast_eq_none
  intro p hp
  rcases mem_fieldUpdatesOf L s p hp with ⟨rule, hmem, hres, hkey⟩
  intro hkg
  rw [hkey] at hkg
  have hg : rule.gauge = g := by injection hkg
  rw [h rule hmem hg] at hres
  exact absurd hres (by simp)

theorem lookupLast_fieldUpdatesOf_of_matched (L : List FieldRule) (s : String)
    (rule : FieldRule) (v : ℚ) (hmem : rule ∈ L)
    (hnd : (L.map FieldRule.gauge).Nodup) (hres : ruleResult s rule = some v) :
    lookupLast (fieldUpdatesOf L s) (GKey.scalar rule.gauge) = some v := by
  induction L with
  | nil => exact absurd hmem (List.not_mem_nil rule)
  | cons h0 L ih =>
    have hnd2 : (L.map FieldRule.gauge).Nodup := (List.nodup_cons.mp hnd).2
    have hni : h0.gauge ∉ L.map FieldRule.gauge := (List.nodup_cons.mp hnd).1
    rcases List.mem_cons.mp hmem with hself | htail
    · subst hself
      have htl : lookupLast (fieldUpdatesOf L s) (GKey.scalar rule.gauge) = none := by
        apply lookupLast_eq_none
        intro p hp
        rcases mem_fieldUpdatesOf L s p hp with ⟨rule2, hmem2, _, hkey2⟩
        intro hkg
        rw [hkey2] at hkg
        have hg2 : rule2.gauge = rule.gauge := by injection hkg
        exact hni (hg2 ▸ List.mem_map_of_mem FieldRule.gauge hmem2)
      simp only [fieldUpdatesOf, List.filterMap_cons, hres, Option.map_some]
      simp only [fieldUpdatesOf] at htl
      simp [lookupLast, htl]
    · have hih := ih htail hnd2
      simp only [fieldUpdatesOf, List.filterMap_cons]
      cases h0r : ruleResult s h0 with
      | none =>
        rw [Option.map_none']
        simp only [fieldUpdatesOf] at hih
        exact hih
      | some w =>
        rw [Option.map_some']
        simp only [fieldUpdatesOf] at hih
        simp [lookupLast, hih]

/-- The pointwise description of one extraction pass at the gauge of a
rule of the table, provided the gauges of the table are pairwise
distinct: the gauge holds the converted capture of that rule when search
and conversion succeed, and is untouched otherwise. -/
theorem applyFieldRulesOf_gauge (L : List FieldRule) (s : String) (r : Registry)
    (rule : FieldRule) (hmem : rule ∈ L) (hnd : (L.map FieldRule.gauge).Nodup)
    (hinj : ∀ rule2 ∈ L, rule2.gauge = rule.gauge → rule2 = rule) :
    applyFieldRulesOf L s r (GKey.scalar rule.gauge) =
      match ruleResult s rule with
      | some v => some v
      | none => r (GKey.scalar rule.gauge) := by
  rw [applyFieldRulesOf_eq_applyUpdates, applyUpdates_apply]
  cases hres : ruleResult s rule with
  | some v => rw [lookupLast_fieldUpdatesOf_of_matched L s rule v hmem hnd hres]
  | none =>
    rw [lookupLast_fieldUpdatesOf_of_unmatched L s rule.gauge]
    intro rule2 hmem2 hg2
    rw [hinj rule2 hmem2 hg2, hres]

/-! ## Lemmas about the chunkserver row loop -/

theorem csLoop_eq (rows : List (List String)) (r : Registry) :
    csLoop rows r = ((csUpdates rows).2, applyUpdates (csUpdates rows).1 r) := by
  induction rows generalizing r with
  | nil => rfl
  | cons caps rest ih =>
    simp only [csLoop, csUpdates]
    cases h : rowUpdates caps with
    | none => rfl
    | some u =>
      dsimp only
      rw [ih, applyUpdates_append]

/-! ## Arithmetic bridge -/

/-- scaleQ is multiplication: the numerator/denominator spelling of the
converters computes exactly the product of the parsed rational with the
scale factor, as the source writes it. -/
theorem scaleQ_eq_mul (q : ℚ) (n : Nat) : scaleQ q n = q * (n : ℚ) := by
  unfold scaleQ
  rw [Rat.mkRat_eq_div]
  conv_rhs => rw [← Rat.num_div_den q]
  push_cast
  ring

/-! ## Concrete facts about the rule table -/

theorem metricsMap_gauges_nodup : (metricsMap.map FieldRule.gauge).Nodup := by decide

theorem metricsMap_gauge_inj :
    ∀ r1 ∈ metricsMap, ∀ r2 ∈ metricsMap, r1.gauge = r2.gauge → r1 = r2 := by decide

theorem metricsMap_no_empty_match :
    ∀ rule ∈ metricsMap, reSearchG1 rule.pat ("") = none := by decide

/-- The pointwise description of collect_system_metrics at the gauge of a
rule of metrics_map, for a nonempty command output. -/
theorem collectSystemMetrics_gauge (s : String) (r : Registry) (rule : FieldRule)
    (hmem : rule ∈ metricsMap) (hs : s ≠ "") :
    (collectSystemMetrics (some s) r).2 (GKey.scalar rule.gauge) =
      match ruleResult s rule with
      | some v => some v
      | none => r (GKey.scalar rule.gauge) := by
  show (if s = "" then (false, r) else (true, applyFieldRules s r)).2 _ = _
  rw [if_neg hs]
  exact applyFieldRulesOf_gauge metricsMap s r rule hmem metricsMap_gauges_nodup
    (fun rule2 hmem2 hg2 => metricsMap_gauge_inj rule2 hmem2 rule hmem hg2)

theorem fieldUpdatesOf_keys_sublist (L : List FieldRule) (s : String) :
    List.Sublist ((fieldUpdatesOf L s).map Prod.fst)
      (L.map fun rule => GKey.scalar rule.gauge) := by
  induction L with
  | nil => simp [fieldUpdatesOf]
  | cons rule L ih =>
    simp only [fieldUpdatesOf, List.filterMap_cons, List.map_cons]
    cases h : ruleResult s rule with
    | none =>
      rw [Option.map_none']
      exact List.Sublist.cons _ ih
    | some v =>
      rw [Option.map_some']
      exact List.Sublist.cons₂ _ ih

/-! ## Claims -/

/-- C1: given command output containing the sample inventory line
10.0.0.5 1 000100 - 4.10.0 0 OK OK 1500 120.50 GiB 200 GiB 60.25%, one
pass of the inventory collector succeeds and registers chunks 1500,
disk used bytes 120.50 times 1024 cubed, disk total bytes 200 times
1024 cubed and disk usage percent 60.25, each under the label
combination ip 10.0.0.5, server id 000100. -/
theorem c1_inventory_sample_registers :
    (collectChunkserverMetrics
      (some ("10.0.0.5 1 000100 - 4.10.0 0 OK OK 1500 120.50 GiB 200 GiB 60.25%"))
      emptyRegistry).1 = true ∧
    (collectChunkserverMetrics
      (some ("10.0.0.5 1 000100 - 4.10.0 0 OK OK 1500 120.50 GiB 200 GiB 60.25%"))
      emptyRegistry).2 (.cs .csChunks ("10.0.0.5") ("000100")) = some 1500 ∧
    (collectChunkserverMetrics
      (some ("10.0.0.5 1 000100 - 4.10.0 0 OK OK 1500 120.50 GiB 200 GiB 60.25%"))
      emptyRegistry).2 (.cs .diskUsed ("10.0.0.5") ("000100")) =
        some ((120.50 : ℚ) * 1024 ^ 3) ∧
    (collectChunkserverMetrics
      (some ("10.0.0.5 1 000100 - 4.10.0 0 OK OK 1500 120.50 GiB 200 GiB 60.25%"))
      emptyRegistry).2 (.cs .diskTotal ("10.0.0.5") ("000100")) =
        some ((200 : ℚ) * 1024 ^ 3) ∧
    (collectChunkserverMetrics
      (some ("10.0.0.5 1 000100 - 4.10.0 0 OK OK 1500 120.50 GiB 200 GiB 60.25%"))
      emptyRegistry).2 (.cs .diskUsagePercent ("10.0.0.5") ("000100")) =
        some (60.25 : ℚ) := by
  refine ⟨by decide, by decide, ?_, ?_, ?_⟩
  · have h : (collectChunkserverMetrics
        (some ("10.0.0.5 1 000100 - 4.10.0 0 OK OK 1500 120.50 GiB 200 GiB 60.25%"))
        emptyRegistry).2 (.cs .diskUsed ("10.0.0.5") ("000100")) =
          some (mkRat 129385889792 1) := by decide
    rw [h]
    have hv : mkRat 129385889792 1 = ((120.50 : ℚ) * 1024 ^ 3) := by
      rw [Rat.mkRat_eq_div]
      norm_num
    rw [hv]
  · have h : (collectChunkserverMetrics
        (some ("10.0.0.5 1 000100 - 4.10.0 0 OK OK 1500 120.50 GiB 200 GiB 60.25%"))
        emptyRegistry).2 (.cs .diskTotal ("10.0.0.5") ("000100")) =
          some (mkRat 214748364800 1) := by decide
    rw [h]
    have hv : mkRat 214748364800 1 = ((200 : ℚ) * 1024 ^ 3) := by
      rw [Rat.mkRat_eq_div]
      norm_num
    rw [hv]
  · have h : (collectChunkserverMetrics
        (some ("10.0.0.5 1 000100 - 4.10.0 0 OK OK 1500 120.50 GiB 200 GiB 60.25%"))
        emptyRegistry).2 (.cs .diskUsagePercent ("10.0.0.5") ("000100")) =
          some (mkRat 241 4) := by decide
    rw [h]
    have hv : mkRat 241 4 = (60.25 : ℚ) := by
      rw [Rat.mkRat_eq_div]
      norm_num
    rw [hv]

/-- C2: the keys written by one field-extraction pass are free of
duplicates for every text (at most one update per rule, on pairwise
distinct gauges), and on the three documented sample lines the pass
emits exactly one update carrying the converted value: RAM used 512 MiB
gives 536870912 bytes, CPU used 3.50 percent gives 3.5, total space
10.00 TiB gives 10995116277760 bytes. -/
theorem c2_field_extraction_values :
    (∀ s : String, ((fieldUpdates s).map Prod.fst).Nodup) ∧
    fieldUpdates ("RAM used   : 512 MiB") =
      [(GKey.scalar .ramUsed, 536870912)] ∧
    fieldUpdates ("CPU used   : 3.50%") =
      [(GKey.scalar .cpuTotal, (3.5 : ℚ))] ∧
    fieldUpdates ("total space : 10.00 TiB") =
      [(GKey.scalar .totalSpace, 10995116277760)] := by
  refine ⟨?_, by decide, ?_, by decide⟩
  · intro s
    exact List.Nodup.sublist (fieldUpdatesOf_keys_sublist metricsMap s) (by decide)
  · have h : fieldUpdates ("CPU used   : 3.50%") =
        [(GKey.scalar .cpuTotal, mkRat 7 2)] := by decide
    rw [h]
    have hv : mkRat 7 2 = (3.5 : ℚ) := by
      rw [Rat.mkRat_eq_div]
      norm_num
    rw [hv]

/-- C3: for every text and every rule of metrics_map whose pattern does
not match that text, the extraction pass performs no write for that
rule gauge: its previously registered value, whatever it was, is
unchanged after the pass. -/
theorem c3_unmatched_rule_is_frame (s : String) (r : Registry) (rule : FieldRule)
    (hmem : rule ∈ metricsMap) (hno : reSearchG1 rule.pat s = none) :
    (collectSystemMetrics (some s) r).2 (GKey.scalar rule.gauge) =
      r (GKey.scalar rule.gauge) := by
  by_cases hs : s = ""
  · subst hs
    rfl
  · rw [collectSystemMetrics_gauge s r rule hmem hs]
    simp [ruleResult, hno]

/-- Witness for C3: the RAM rule does not match the text, and a
pre-seeded value 42 of the RAM gauge survives the pass unchanged. -/
theorem c3_unmatched_rule_is_frame_witness :
    (⟨patRam, Conv.mibToBytes, ScalarMetric.ramUsed⟩ : FieldRule) ∈ metricsMap ∧
    reSearchG1 patRam ("no ram line here") = none ∧
    (collectSystemMetrics (some ("no ram line here"))
        (Registry.set emptyRegistry (GKey.scalar .ramUsed) 42)).2
      (GKey.scalar .ramUsed) = some 42 :=
  ⟨by decide, by decide,
    (c3_unmatched_rule_is_frame ("no ram line here")
      (Registry.set emptyRegistry (GKey.scalar .ramUsed) 42)
      ⟨patRam, Conv.mibToBytes, ScalarMetric.ramUsed⟩ (by decide) (by decide)).trans
      (by decide)⟩

/-- C4 counterexample: on the three-row table whose middle row has the
fractional total-space field, the claimed record for the middle row is
absent entirely: even its well-formed fields (chunk count, usage
percent) are left unwritten from an empty registry, while the pass
itself reports success.  The claim requires the middle row to retain
those fields, which this refutes. -/
theorem c4_counterexample :
    (collectChunkserverMetrics (some threeRowTable) emptyRegistry).1 = true ∧
    (collectChunkserverMetrics (some threeRowTable) emptyRegistry).2
      (.cs .csChunks ("10.0.0.6") ("000101")) = none ∧
    (collectChunkserverMetrics (some threeRowTable) emptyRegistry).2
      (.cs .diskUsagePercent ("10.0.0.6") ("000101")) = none ∧
    (collectChunkserverMetrics (some threeRowTable) emptyRegistry).2
      (.cs .csChunks ("10.0.0.5") ("000100")) = some 1500 := by
  refine ⟨by decide, by decide, by decide, by decide⟩

/-- C4 amended: a row whose row shape is broken by one unparseable
measurement field (a fractional total-space column) matches no record at
all, so none of its fields are written, not just the broken one; the
well-formed rows of the same table are extracted in full and the pass
succeeds. -/
theorem c4_malformed_row_dropped_whole :
    (collectChunkserverMetrics (some threeRowTable) emptyRegistry).1 = true ∧
    reFindall patCS threeRowTable =
      [["10.0.0.5", "000100", "1500", "120.50", "200", "60.25"],
       ["10.0.0.7", "000102", "1700", "140.50", "400", "62.25"]] ∧
    (∀ m : CSMetric,
      (collectChunkserverMetrics (some threeRowTable) emptyRegistry).2
        (.cs m ("10.0.0.6") ("000101")) = none) ∧
    (collectChunkserverMetrics (some threeRowTable) emptyRegistry).2
      (.cs .csChunks ("10.0.0.5") ("000100")) = some 1500 ∧
    (collectChunkserverMetrics (some threeRowTable) emptyRegistry).2
      (.cs .diskUsed ("10.0.0.5") ("000100")) = some ((120.50 : ℚ) * 1024 ^ 3) ∧
    (collectChunkserverMetrics (some threeRowTable) emptyRegistry).2
      (.cs .diskTotal ("10.0.0.5") ("000100")) = some ((200 : ℚ) * 1024 ^ 3) ∧
    (collectChunkserverMetrics (some threeRowTable) emptyRegistry).2
      (.cs .diskUsagePercent ("10.0.0.5") ("000100")) = some (60.25 : ℚ) ∧
    (collectChunkserverMetrics (some threeRowTable) emptyRegistry).2
      (.cs .csChunks ("10.0.0.7") ("000102")) = some 1700 ∧
    (collectChunkserverMetrics (some threeRowTable) emptyRegistry).2
      (.cs .diskUsed ("10.0.0.7") ("000102")) = some ((140.50 : ℚ) * 1024 ^ 3) ∧
    (collectChunkserverMetrics (some threeRowTable) emptyRegistry).2
      (.cs .diskTotal ("10.0.0.7") ("000102")) = some ((400 : ℚ) * 1024 ^ 3) ∧
    (collectChunkserverMetrics (some threeRowTable) emptyRegistry).2
      (.cs .diskUsagePercent ("10.0.0.7") ("000102")) = some (62.25 : ℚ) := by
  refine ⟨by decide, by decide, by intro m; cases m <;> decide, by decide,
    ?_, ?_, ?_, by decide, ?_, ?_, ?_⟩
  · have h : (collectChunkserverMetrics (some threeRowTable) emptyRegistry).2
        (.cs .diskUsed ("10.0.0.5") ("000100")) = some (mkRat 129385889792 1) := by
      decide
    rw [h]
    have hv : mkRat 129385889792 1 = ((120.50 : ℚ) * 1024 ^ 3) := by
      rw [Rat.mkRat_eq_div]
      norm_num
    rw [hv]
  · have h : (collectChunkserverMetrics (some threeRowTable) emptyRegistry).2
        (.cs .diskTotal ("10.0.0.5") ("000100")) = some (mkRat 214748364800 1) := by
      decide
    rw [h]
    have hv : mkRat 214748364800 1 = ((200 : ℚ) * 1024 ^ 3) := by
      rw [Rat.mkRat_eq_div]
      norm_num
    rw [hv]
  · have h : (collectChunkserverMetrics (some threeRowTable) emptyRegistry).2
        (.cs .diskUsagePercent ("10.0.0.5") ("000100")) = some (mkRat 241 4) := by
      decide
    rw [h]
    have hv : mkRat 241 4 = (60.25 : ℚ) := by
      rw [Rat.mkRat_eq_div]
      norm_num
    rw [hv]
  · have h : (collectChunkserverMetrics (some threeRowTable) emptyRegistry).2
        (.cs .diskUsed ("10.0.0.7") ("000102")) = some (mkRat 150860726272 1) := by
      decide
    rw [h]
    have hv : mkRat 150860726272 1 = ((140.50 : ℚ) * 1024 ^ 3) := by
      rw [Rat.mkRat_eq_div]
      norm_num
    rw [hv]
  · have h : (collectChunkserverMetrics (some threeRowTable) emptyRegistry).2
        (.cs .diskTotal ("10.0.0.7") ("000102")) = some (mkRat 429496729600 1) := by
      decide
    rw [h]
    have hv : mkRat 429496729600 1 = ((400 : ℚ) * 1024 ^ 3) := by
      rw [Rat.mkRat_eq_div]
      norm_num
    rw [hv]
  · have h : (collectChunkserverMetrics (some threeRowTable) emptyRegistry).2
        (.cs .diskUsagePercent ("10.0.0.7") ("000102")) = some (mkRat 249 4) := by
      decide
    rw [h]
    have hv : mkRat 249 4 = (62.25 : ℚ) := by
      rw [Rat.mkRat_eq_div]
      norm_num
    rw [hv]

/-- C5: rules of one pass are independent.  If a rule matches but its
converter fails on the captured string (as the version rule does on a
dotted version token), its gauge is left unwritten, while any other rule
of the same pass that matches and converts successfully still has its
value written. -/
theorem c5_rule_independence (s : String) (r : Registry)
    (rule rule2 : FieldRule) (cap cap2 : String) (v : ℚ)
    (hmem : rule ∈ metricsMap) (hmem2 : rule2 ∈ metricsMap)
    (hsearch : reSearchG1 rule.pat s = some cap) (hfail : rule.conv.run cap = none)
    (hsearch2 : reSearchG1 rule2.pat s = some cap2)
    (hok : rule2.conv.run cap2 = some v) :
    (collectSystemMetrics (some s) r).2 (GKey.scalar rule.gauge) =
      r (GKey.scalar rule.gauge) ∧
    (collectSystemMetrics (some s) r).2 (GKey.scalar rule2.gauge) = some v := by
  have hs : s ≠ "" := by
    intro h0
    subst h0
    rw [metricsMap_no_empty_match rule hmem] at hsearch
    exact Option.noConfusion hsearch
  constructor
  · rw [collectSystemMetrics_gauge s r rule hmem hs]
    simp [ruleResult, hsearch, hfail]
  · rw [collectSystemMetrics_gauge s r rule2 hmem2 hs]
    simp [ruleResult, hsearch2, hok]

/-- Witness for C5: on a status text holding both a version line and a
RAM line, the version rule captures 4.10.0, whose float conversion
fails, so a pre-seeded version value 77 survives, while the RAM rule
still writes 512 MiB in bytes. -/
theorem c5_rule_independence_witness :
    reSearchG1 patVersion ("master version : 4.10.0\nRAM used : 512 MiB") =
      some ("4.10.0") ∧
    Conv.run .toFloat ("4.10.0") = none ∧
    reSearchG1 patRam ("master version : 4.10.0\nRAM used : 512 MiB") =
      some ("512") ∧
    Conv.run .mibToBytes ("512") = some 536870912 ∧
    (collectSystemMetrics (some ("master version : 4.10.0\nRAM used : 512 MiB"))
        (Registry.set emptyRegistry (GKey.scalar .version) 77)).2
      (GKey.scalar .version) = some 77 ∧
    (collectSystemMetrics (some ("master version : 4.10.0\nRAM used : 512 MiB"))
        (Registry.set emptyRegistry (GKey.scalar .version) 77)).2
      (GKey.scalar .ramUsed) = some 536870912 := by
  refine ⟨by decide, by decide, by decide, by decide, ?_, ?_⟩
  · exact ((c5_rule_independence ("master version : 4.10.0\nRAM used : 512 MiB")
      (Registry.set emptyRegistry (GKey.scalar .version) 77)
      ⟨patVersion, Conv.toFloat, ScalarMetric.version⟩
      ⟨patRam, Conv.mibToBytes, ScalarMetric.ramUsed⟩
      ("4.10.0") ("512") 536870912
      (by decide) (by decide) (by decide) (by decide) (by decide) (by decide)).1).trans
      (by decide)
  · exact (c5_rule_independence ("master version : 4.10.0\nRAM used : 512 MiB")
      (Registry.set emptyRegistry (GKey.scalar .version) 77)
      ⟨patVersion, Conv.toFloat, ScalarMetric.version⟩
      ⟨patRam, Conv.mibToBytes, ScalarMetric.ramUsed⟩
      ("4.10.0") ("512") 536870912
      (by decide) (by decide) (by decide) (by decide) (by decide) (by decide)).2

/-- C6 counterexample: a process that completes with a non-zero exit
status produces the failure result None but emits no log line at all,
refuting the part of the claim that says each of the three failure
modes produces a distinct logged failure. -/
theorem c6_counterexample :
    executeCommand ("mfscli -H host -SIG") (.completed 1 ("some output")) =
      (none, []) := rfl

/-- C6 amended: the runner returns the captured text exactly when the
process exits with status zero; a timeout and a spawn error return None
and log messages distinct from each other; a non-zero exit returns None
silently, without a log line; no failure mode reaches the caller as an
exception, every case returns a result. -/
theorem c6_exec_command_behavior (cmd out msg : String) (rc : Int) :
    executeCommand cmd (.completed 0 out) = (some out, []) ∧
    (rc ≠ 0 → executeCommand cmd (.completed rc out) = (none, [])) ∧
    executeCommand cmd .timeout = (none, [("Command timed out: " ++ cmd)]) ∧
    executeCommand cmd (.spawnError msg) =
      (none, [("Command execution error: " ++ msg)]) ∧
    ("Command timed out: " ++ cmd) ≠ ("Command execution error: " ++ msg) := by
  refine ⟨rfl, ?_, rfl, rfl, ?_⟩
  · intro h
    simp [executeCommand, h]
  · intro h
    have h8 : (("Command timed out: " ++ cmd) : String).data[8]? =
        (("Command execution error: " ++ msg) : String).data[8]? := by rw [h]
    rw [String.data_append, String.data_append] at h8
    rw [List.getElem?_append, List.getElem?_append] at h8
    rw [if_pos (show (8 : Nat) < ("Command timed out: ").data.length by decide),
      if_pos (show (8 : Nat) < ("Command execution error: ").data.length by decide)] at h8
    exact absurd h8 (by decide)

/-- Witness for C6: exit status one returns None with an empty log. -/
theorem c6_exec_command_behavior_witness :
    (1 : Int) ≠ 0 ∧ executeCommand ("c") (.completed 1 ("o")) = (none, []) :=
  ⟨by decide, (c6_exec_command_behavior ("c") ("o") ("m") 1).2.1 (by decide)⟩

/-- C7: collector failures are isolated.  In a cycle whose system and
throughput commands failed, the chunkserver collector still runs and
produces exactly its standalone result, and all three outcomes are
reported; the guarded cycle loop yields one outcome entry per collector
whatever the outcomes are; and a collector that raises contributes a
logged none entry while the remaining collectors of the cycle run on
the registry unchanged by the failure. -/
theorem c7_collector_isolation :
    (∀ (csOut : Option String) (r : Registry),
      collectAllMetrics none csOut none r =
        ([false, (collectChunkserverMetrics csOut r).1, false],
          (collectChunkserverMetrics csOut r).2)) ∧
    (∀ (fs : List (Registry → Except String Bool × Registry)) (r : Registry),
      (runCollectorsGuarded fs r).1.length = fs.length) ∧
    (∀ (e : String) (fs : List (Registry → Except String Bool × Registry))
        (r : Registry),
      runCollectorsGuarded ((fun r2 => (Except.error e, r2)) :: fs) r =
        (none :: (runCollectorsGuarded fs r).1, (runCollectorsGuarded fs r).2)) := by
  refine ⟨fun csOut r => rfl, ?_, fun e fs r => rfl⟩
  intro fs r
  induction fs generalizing r with
  | nil => rfl
  | cons f fs ih => simp [runCollectorsGuarded, ih]

/-- C8: one extraction pass is idempotent: running the system pass or
the chunkserver pass twice on the same text leaves the registry exactly
as one run leaves it; with the registry as a map per labeled key there
is no accumulation and no duplicate label entry. -/
theorem c8_extraction_idempotent (s : String) (r : Registry) :
    (collectSystemMetrics (some s) ((collectSystemMetrics (some s) r).2)).2 =
      (collectSystemMetrics (some s) r).2 ∧
    (collectChunkserverMetrics (some s)
        ((collectChunkserverMetrics (some s) r).2)).2 =
      (collectChunkserverMetrics (some s) r).2 := by
  constructor
  · by_cases hs : s = ""
    · subst hs
      rfl
    · have hfst : ∀ r2 : Registry,
          (collectSystemMetrics (some s) r2).2 = applyFieldRules s r2 := by
        intro r2
        simp [collectSystemMetrics, hs]
      rw [hfst, hfst]
      unfold applyFieldRules
      rw [applyFieldRulesOf_eq_applyUpdates, applyFieldRulesOf_eq_applyUpdates,
        applyUpdates_idem]
  · by_cases hs : s = ""
    · subst hs
      rfl
    · have hsnd : ∀ r2 : Registry,
          (collectChunkserverMetrics (some s) r2).2 =
            applyUpdates (csUpdates (reFindall patCS s)).1 r2 := by
        intro r2
        simp [collectChunkserverMetrics, hs, csLoop_eq]
      rw [hsnd, hsnd, applyUpdates_idem]

/-- C10: the inventory row pattern requires the total-space column to be
an integral number of GiB.  On the sample row whose total-space field is
the fractional 200.5 GiB, the row pattern finds no match at all, and the
pass leaves every registry key untouched while still reporting success. -/
theorem c10_fractional_total_drops_row :
    reFindall patCS
      ("10.0.0.5 1 000100 - 4.10.0 0 OK OK 1500 120.50 GiB 200.5 GiB 60.25%") =
      [] ∧
    ∀ r : Registry,
      collectChunkserverMetrics
        (some ("10.0.0.5 1 000100 - 4.10.0 0 OK OK 1500 120.50 GiB 200.5 GiB 60.25%"))
        r = (true, r) := by
  have h : reFindall patCS
      ("10.0.0.5 1 000100 - 4.10.0 0 OK OK 1500 120.50 GiB 200.5 GiB 60.25%") =
      [] := by decide
  refine ⟨h, fun r => ?_⟩
  show (if ("10.0.0.5 1 000100 - 4.10.0 0 OK OK 1500 120.50 GiB 200.5 GiB 60.25%" :
      String) = "" then (false, r)
    else csLoop (reFindall patCS
      ("10.0.0.5 1 000100 - 4.10.0 0 OK OK 1500 120.50 GiB 200.5 GiB 60.25%")) r) =
    (true, r)
  rw [if_neg (by decide), h]
  rfl

/-! ## Soundness of the matcher on the chunkserver pattern

The converters of the row loop can only fail on captures that are not
digit shaped.  The following lemmas show the captures produced by the
row pattern always are, so a chunkserver pass over any nonempty output
succeeds.  Each lemma peels one leading token off a successful run of
the matcher. -/

theorem mseq_nil_end (fuel : Nat) (s : List Char) (pos : Nat) (opens : List Nat)
    (caps : List (Nat × Nat)) (res : Nat × List (Nat × Nat))
    (h : mseq fuel [] s pos opens caps = some res) : res = (pos, caps) := by
  cases fuel with
  | zero => exact Option.noConfusion h
  | succ fuel =>
    simp only [mseq] at h
    exact (Option.some_inj.mp h).symm

theorem mseq_lit_step (fuel : Nat) (c : Char) (rest : List RTok) (s : List Char)
    (pos : Nat) (opens : List Nat) (caps : List (Nat × Nat))
    (res : Nat × List (Nat × Nat))
    (h : mseq fuel (.lit c :: rest) s pos opens caps = some res) :
    ∃ s2 fuel2, s = c :: s2 ∧ mseq fuel2 rest s2 (pos + 1) opens caps = some res := by
  cases fuel with
  | zero => exact Option.noConfusion h
  | succ fuel =>
    cases s with
    | nil => exact Option.noConfusion h
    | cons d s2 =>
      simp only [mseq] at h
      by_cases hd : d = c
      · subst hd
        rw [if_pos rfl] at h
        exact ⟨s2, fuel, rfl, h⟩
      · rw [if_neg hd] at h
        exact Option.noConfusion h

theorem mseq_gopen_step (fuel : Nat) (rest : List RTok) (s : List Char)
    (pos : Nat) (opens : List Nat) (caps : List (Nat × Nat))
    (res : Nat × List (Nat × Nat))
    (h : mseq fuel (.gopen :: rest) s pos opens caps = some res) :
    ∃ fuel2, mseq fuel2 rest s pos (pos :: opens) caps = some res := by
  cases fuel with
  | zero => exact Option.noConfusion h
  | succ fuel =>
    simp only [mseq] at h
    exact ⟨fuel, h⟩

theorem mseq_gclose_step (fuel : Nat) (rest : List RTok) (s : List Char)
    (pos st : Nat) (opens : List Nat) (caps : List (Nat × Nat))
    (res : Nat × List (Nat × Nat))
    (h : mseq fuel (.gclose :: rest) s pos (st :: opens) caps = some res) :
    ∃ fuel2, mseq fuel2 rest s pos opens (caps ++ [(st, pos)]) = some res := by
  cases fuel with
  | zero => exact Option.noConfusion h
  | succ fuel =>
    simp only [mseq] at h
    exact ⟨fuel, h⟩

theorem mseq_star_run (k : CClass) (rest : List RTok) :
    ∀ (fuel : Nat) (s : List Char) (pos : Nat) (opens : List Nat)
      (caps : List (Nat × Nat)) (res : Nat × List (Nat × Nat)),
    mseq fuel (.star k :: rest) s pos opens caps = some res →
    ∃ j fuel2, j ≤ s.length ∧ ((s.take j).all k.mem) = true ∧
      mseq fuel2 rest (s.drop j) (pos + j) opens caps = some res := by
  intro fuel
  induction fuel with
  | zero =>
    intro s pos opens caps res h
    exact Option.noConfusion h
  | succ fuel ih =>
    intro s pos opens caps res h
    cases s with
    | nil =>
      simp only [mseq] at h
      exact ⟨0, fuel, by simp, by simp, by simpa using h⟩
    | cons d s2 =>
      simp only [mseq] at h
      by_cases hd : k.mem d
      · rw [if_pos hd] at h
        cases hin : mseq fuel (.star k :: rest) s2 (pos + 1) opens caps with
        | some res2 =>
          rw [hin] at h
          have hres : res2 = res := Option.some_inj.mp h
          subst hres
          obtain ⟨j2, fuel2, hlen, hall, hcont⟩ := ih s2 (pos + 1) opens caps res2 hin
          refine ⟨j2 + 1, fuel2, by simpa using Nat.succ_le_succ hlen, ?_, ?_⟩
          · simpa [List.all_cons, hd] using hall
          · have harith : pos + 1 + j2 = pos + (j2 + 1) := by omega
            rw [← harith]
            simpa using hcont
        | none =>
          rw [hin] at h
          exact ⟨0, fuel, by simp, by simp, by simpa using h⟩
      · rw [if_neg hd] at h
        exact ⟨0, fuel, by simp, by simp, by simpa using h⟩

theorem mseq_plus_run (k : CClass) (rest : List RTok) (fuel : Nat) (s : List Char)
    (pos : Nat) (opens : List Nat) (caps : List (Nat × Nat))
    (res : Nat × List (Nat × Nat))
    (h : mseq fuel (.plus k :: rest) s pos opens caps = some res) :
    ∃ j fuel2, 1 ≤ j ∧ j ≤ s.length ∧ ((s.take j).all k.mem) = true ∧
      mseq fuel2 rest (s.drop j) (pos + j) opens caps = some res := by
  cases fuel with
  | zero => exact Option.noConfusion h
  | succ fuel =>
    cases s with
    | nil => exact Option.noConfusion h
    | cons d s2 =>
      simp only [mseq] at h
      by_cases hd : k.mem d
      · rw [if_pos hd] at h
        obtain ⟨j2, fuel2, hlen, hall, hcont⟩ :=
          mseq_star_run k rest fuel s2 (pos + 1) opens caps res h
        refine ⟨j2 + 1, fuel2, Nat.le_add_left 1 j2, by simpa using Nat.succ_le_succ hlen,
          ?_, ?_⟩
        · simpa [List.all_cons, hd] using hall
        · have harith : pos + 1 + j2 = pos + (j2 + 1) := by omega
          rw [← harith]
          simpa using hcont
      · rw [if_neg hd] at h
        exact Option.noConfusion h

theorem mseq_grpInt (rest : List RTok) (fuel : Nat) (s : List Char) (pos : Nat)
    (opens : List Nat) (caps : List (Nat × Nat)) (res : Nat × List (Nat × Nat))
    (h : mseq fuel (.gopen :: .plus .digit :: .gclose :: rest) s pos opens caps =
      some res) :
    ∃ j fuel2, 1 ≤ j ∧ j ≤ s.length ∧ allDigits (s.take j) = true ∧
      mseq fuel2 rest (s.drop j) (pos + j) opens (caps ++ [(pos, pos + j)]) =
        some res := by
  obtain ⟨fuel1, h1⟩ := mseq_gopen_step fuel _ s pos opens caps res h
  obtain ⟨j, fuel2, hj1, hjlen, hall, h2⟩ :=
    mseq_plus_run .digit _ fuel1 s pos (pos :: opens) caps res h1
  obtain ⟨fuel3, h3⟩ :=
    mseq_gclose_step fuel2 rest (s.drop j) (pos + j) pos opens caps res h2
  exact ⟨j, fuel3, hj1, hjlen, hall, h3⟩

theorem mseq_grpDec (rest : List RTok) (fuel : Nat) (s : List Char) (pos : Nat)
    (opens : List Nat) (caps : List (Nat × Nat)) (res : Nat × List (Nat × Nat))
    (h : mseq fuel
      (.gopen :: .plus .digit :: .lit '.' :: .plus .digit :: .gclose :: rest)
      s pos opens caps = some res) :
    ∃ j fuel2, 1 ≤ j ∧ j ≤ s.length ∧
      (∃ a b, a ≠ [] ∧ b ≠ [] ∧ allDigits a = true ∧ allDigits b = true ∧
        s.take j = a ++ '.' :: b) ∧
      mseq fuel2 rest (s.drop j) (pos + j) opens (caps ++ [(pos, pos + j)]) =
        some res := by
  obtain ⟨fuel1, h1⟩ := mseq_gopen_step fuel _ s pos opens caps res h
  obtain ⟨j1, fuel2, hj1, hj1len, hall1, h2⟩ :=
    mseq_plus_run .digit _ fuel1 s pos (pos :: opens) caps res h1
  obtain ⟨s3, fuel3, hs3, h3⟩ :=
    mseq_lit_step fuel2 '.' _ (s.drop j1) (pos + j1) (pos :: opens) caps res h2
  obtain ⟨j2, fuel4, hj2, hj2len, hall2, h4⟩ :=
    mseq_plus_run .digit _ fuel3 s3 (pos + j1 + 1) (pos :: opens) caps res h3
  obtain ⟨fuel5, h5⟩ :=
    mseq_gclose_step fuel4 rest (s3.drop j2) (pos + j1 + 1 + j2) pos opens caps res h4
  have hs3len : s3.length = s.length - j1 - 1 := by
    have := congrArg List.length hs3
    simp [List.length_drop] at this
    omega
  have hd1 : s.drop (j1 + 1) = s3 := by
    have h0 := List.drop_drop 1 j1 s
    rw [hs3] at h0
    simpa using h0.symm
  have hd2 : s.drop (j1 + 1 + j2) = s3.drop j2 := by
    have ha := List.drop_drop j2 (j1 + 1) s
    rw [hd1] at ha
    exact ha.symm
  refine ⟨j1 + 1 + j2, fuel5, by omega, by omega, ?_, ?_⟩
  · refine ⟨s.take j1, s3.take j2, ?_, ?_, hall1, hall2, ?_⟩
    · have hlt : (s.take j1).length = j1 := by
        rw [List.length_take]
        omega
      intro hnil
      rw [hnil] at hlt
      simp at hlt
      omega
    · have hlt : (s3.take j2).length = j2 := by
        rw [List.length_take]
        omega
      intro hnil
      rw [hnil] at hlt
      simp at hlt
      omega
    · have h1a := List.take_add s j1 (1 + j2)
      rw [hs3] at h1a
      have h1b : ('.' :: s3).take (1 + j2) = '.' :: s3.take j2 := by
        rw [show 1 + j2 = j2 + 1 by omega]
        rfl
      rw [h1b] at h1a
      rw [show j1 + 1 + j2 = j1 + (1 + j2) by omega]
      exact h1a
  · rw [hd2, show pos + (j1 + 1 + j2) = pos + j1 + 1 + j2 by omega]
    exact h5

theorem mseq_grpQuad (rest : List RTok) (fuel : Nat) (s : List Char) (pos : Nat)
    (opens : List Nat) (caps : List (Nat × Nat)) (res : Nat × List (Nat × Nat))
    (h : mseq fuel
      (.gopen :: .plus .digit :: .lit '.' :: .plus .digit :: .lit '.' ::
        .plus .digit :: .lit '.' :: .plus .digit :: .gclose :: rest)
      s pos opens caps = some res) :
    ∃ j fuel2, j ≤ s.length ∧
      mseq fuel2 rest (s.drop j) (pos + j) opens (caps ++ [(pos, pos + j)]) =
        some res := by
  obtain ⟨fuel1, h1⟩ := mseq_gopen_step fuel _ s pos opens caps res h
  obtain ⟨j1, fuel2, _, hl1, _, h2⟩ :=
    mseq_plus_run .digit _ fuel1 s pos (pos :: opens) caps res h1
  obtain ⟨s3, fuel3, hs3, h3⟩ :=
    mseq_lit_step fuel2 '.' _ (s.drop j1) (pos + j1) (pos :: opens) caps res h2
  obtain ⟨j2, fuel4, _, hl2, _, h4⟩ :=
    mseq_plus_run .digit _ fuel3 s3 (pos + j1 + 1) (pos :: opens) caps res h3
  obtain ⟨s5, fuel5, hs5, h5⟩ :=
    mseq_lit_step fuel4 '.' _ (s3.drop j2) (pos + j1 + 1 + j2) (pos :: opens) caps res h4
  obtain ⟨j3, fuel6, _, hl3, _, h6⟩ :=
    mseq_plus_run .digit _ fuel5 s5 (pos + j1 + 1 + j2 + 1) (pos :: opens) caps res h5
  obtain ⟨s7, fuel7, hs7, h7⟩ :=
    mseq_lit_step fuel6 '.' _ (s5.drop j3) (pos + j1 + 1 + j2 + 1 + j3)
      (pos :: opens) caps res h6
  obtain ⟨j4, fuel8, _, hl4, _, h8⟩ :=
    mseq_plus_run .digit _ fuel7 s7 (pos + j1 + 1 + j2 + 1 + j3 + 1)
      (pos :: opens) caps res h7
  obtain ⟨fuel9, h9⟩ :=
    mseq_gclose_step fuel8 rest (s7.drop j4)
      (pos + j1 + 1 + j2 + 1 + j3 + 1 + j4) pos opens caps res h8
  have hs3len : s3.length = s.length - j1 - 1 := by
    have := congrArg List.length hs3
    simp [List.length_drop] at this
    omega
  have hs5len : s5.length = s3.length - j2 - 1 := by
    have := congrArg List.length hs5
    simp [List.length_drop] at this
    omega
  have hs7len : s7.length = s5.length - j3 - 1 := by
    have := congrArg List.length hs7
    simp [List.length_drop] at this
    omega
  have hd1 : s.drop (j1 + 1) = s3 := by
    have h0 := List.drop_drop 1 j1 s
    rw [hs3] at h0
    simpa using h0.symm
  have hd2 : s.drop (j1 + 1 + j2 + 1) = s5 := by
    have ha := List.drop_drop j2 (j1 + 1) s
    rw [hd1] at ha
    have hb := List.drop_drop 1 (j1 + 1 + j2) s
    rw [← ha, hs5] at hb
    simpa using hb.symm
  have hd3 : s.drop (j1 + 1 + j2 + 1 + j3 + 1) = s7 := by
    have ha := List.drop_drop j3 (j1 + 1 + j2 + 1) s
    rw [hd2] at ha
    have hb := List.drop_drop 1 (j1 + 1 + j2 + 1 + j3) s
    rw [← ha, hs7] at hb
    simpa using hb.symm
  have hd4 : s.drop (j1 + 1 + j2 + 1 + j3 + 1 + j4) = s7.drop j4 := by
    have ha := List.drop_drop j4 (j1 + 1 + j2 + 1 + j3 + 1) s
    rw [hd3] at ha
    exact ha.symm
  refine ⟨j1 + 1 + j2 + 1 + j3 + 1 + j4, fuel9, by omega, ?_⟩
  rw [hd4, show pos + (j1 + 1 + j2 + 1 + j3 + 1 + j4) =
    pos + j1 + 1 + j2 + 1 + j3 + 1 + j4 by omega]
  exact h9

theorem pyIntN_of_digits (u : List Char) (h1 : u ≠ []) (h2 : allDigits u = true) :
    pyIntN (String.mk u) = some (digitsVal u) := by
  show (if u ≠ [] ∧ allDigits u then some (digitsVal u) else none) = _
  rw [if_pos ⟨h1, by simp [h2]⟩]

theorem no_dot_of_digits (u : List Char) (h : allDigits u = true) :
    ('.' : Char) ∉ u := by
  intro hmem
  have hall := List.all_eq_true.mp h ('.' : Char) hmem
  exact absurd hall (by decide)

theorem splitDot_of_shape (a b : List Char) (hda : allDigits a = true)
    (hdb : allDigits b = true) : splitDot (a ++ '.' :: b) = some (a, b) := by
  induction a with
  | nil =>
    show splitDot ('.' :: b) = some ([], b)
    have hnd : ('.' : Char) ∉ b := no_dot_of_digits b hdb
    simp [splitDot, hnd]
  | cons c t ih =>
    simp only [allDigits, List.all_cons, Bool.and_eq_true] at hda
    have hc : c ≠ '.' := by
      intro h0
      rw [h0] at hda
      exact absurd hda.1 (by decide)
    show splitDot (c :: (t ++ '.' :: b)) = _
    simp only [splitDot]
    rw [if_neg hc, ih (by simp [allDigits, hda.2])]
    rfl

theorem pyFloat_of_shape (a b : List Char) (ha : a ≠ []) (hda : allDigits a = true)
    (hdb : allDigits b = true) :
    pyFloat (String.mk (a ++ '.' :: b)) =
      some (mkRat (digitsVal a * 10 ^ b.length + digitsVal b) (10 ^ b.length)) := by
  rcases a with _ | ⟨c, a2⟩
  · exact absurd rfl ha
  · simp only [allDigits, List.all_cons, Bool.and_eq_true] at hda
    have hc1 : c ≠ '-' := by
      intro h0
      rw [h0] at hda
      exact absurd hda.1 (by decide)
    have hc2 : c ≠ '+' := by
      intro h0
      rw [h0] at hda
      exact absurd hda.1 (by decide)
    have hsplit : splitDot (c :: a2 ++ '.' :: b) = some (c :: a2, b) :=
      splitDot_of_shape (c :: a2) b (by simp [allDigits, hda.1, hda.2]) hdb
    rw [List.cons_append] at hsplit
    simp only [pyFloat, List.cons_append, pySign, if_neg hc1, if_neg hc2]
    rw [hsplit]
    simp only [allDigits, List.all_cons, hda.1, hda.2, hdb, Bool.and_eq_true]
    push_cast
    simp
    exact fun x hx => List.all_eq_true.mp hdb x hx

theorem patCS_flat : patCS =
    [.gopen, .plus .digit, .lit '.', .plus .digit, .lit '.', .plus .digit,
     .lit '.', .plus .digit, .gclose,
     .plus .space, .plus .digit, .plus .space,
     .gopen, .plus .digit, .gclose,
     .plus .space, .lit '-', .plus .space,
     .plus .digit, .lit '.', .plus .digit, .lit '.', .plus .digit,
     .plus .space, .plus .digit, .plus .space,
     .plus .word, .plus .space, .plus .word, .plus .space,
     .gopen, .plus .digit, .gclose,
     .plus .space,
     .gopen, .plus .digit, .lit '.', .plus .digit, .gclose,
     .star .space, .lit 'G', .lit 'i', .lit 'B',
     .plus .space,
     .gopen, .plus .digit, .gclose,
     .star .space, .lit 'G', .lit 'i', .lit 'B',
     .plus .space,
     .gopen, .plus .digit, .lit '.', .plus .digit, .gclose,
     .lit '%'] := rfl

theorem drop_of_cons_eq (cs : List Char) (P : Nat) (c : Char) (s2 : List Char)
    (h : cs.drop P = c :: s2) : cs.drop (P + 1) = s2 := by
  have h0 := List.drop_drop 1 P cs
  rw [h] at h0
  simpa using h0.symm

theorem capStr_take (cs : List Char) (P j : Nat) :
    capStr cs (P, P + j) = String.mk ((cs.drop P).take j) := by
  simp [capStr, Nat.add_sub_cancel_left]

theorem allDigits_of_memrun (u : List Char)
    (h : (u.all (CClass.mem .digit)) = true) : allDigits u = true := h

theorem take_ne_nil_of_le (u : List Char) (j : Nat) (h1 : 1 ≤ j)
    (h2 : j ≤ u.length) : u.take j ≠ [] := by
  intro h0
  have hlen := congrArg List.length h0
  rw [List.length_take] at hlen
  simp only [List.length_nil] at hlen
  omega

/-- Soundness of the matcher on the chunkserver row pattern: whatever
row the pattern matches, the six captures are shaped so that the
unpacking and the four conversions of the row loop succeed. -/
theorem mseq_patCS_row_ok (cs : List Char) (fuel : Nat) (pos : Nat)
    (res : Nat × List (Nat × Nat))
    (h : mseq fuel patCS (cs.drop pos) pos [] [] = some res) :
    (rowUpdates (res.2.map (capStr cs))).isSome = true := by
  rw [patCS_flat] at h
  obtain ⟨q1, f1, _, h1⟩ := mseq_grpQuad _ _ _ _ _ _ _ h
  rw [List.drop_drop] at h1
  obtain ⟨a1, f2, _, _, _, h2⟩ := mseq_plus_run _ _ _ _ _ _ _ _ h1
  rw [List.drop_drop] at h2
  obtain ⟨d1, f3, _, _, _, h3⟩ := mseq_plus_run _ _ _ _ _ _ _ _ h2
  rw [List.drop_drop] at h3
  obtain ⟨a2, f4, _, _, _, h4⟩ := mseq_plus_run _ _ _ _ _ _ _ _ h3
  rw [List.drop_drop] at h4
  obtain ⟨js, f5, hjs1, hjslen, hjsdig, h5⟩ := mseq_grpInt _ _ _ _ _ _ _ h4
  rw [List.drop_drop] at h5
  obtain ⟨a3, f6, _, _, _, h6⟩ := mseq_plus_run _ _ _ _ _ _ _ _ h5
  rw [List.drop_drop] at h6
  obtain ⟨sA, fA, heqA, h7⟩ := mseq_lit_step _ _ _ _ _ _ _ _ h6
  rw [← drop_of_cons_eq _ _ _ _ heqA] at h7
  obtain ⟨a4, f8, _, _, _, h8⟩ := mseq_plus_run _ _ _ _ _ _ _ _ h7
  rw [List.drop_drop] at h8
  obtain ⟨v1, f9, _, _, _, h9⟩ := mseq_plus_run _ _ _ _ _ _ _ _ h8
  rw [List.drop_drop] at h9
  obtain ⟨sB, fB, heqB, h10⟩ := mseq_lit_step _ _ _ _ _ _ _ _ h9
  rw [← drop_of_cons_eq _ _ _ _ heqB] at h10
  obtain ⟨v2, f11, _, _, _, h11⟩ := mseq_plus_run _ _ _ _ _ _ _ _ h10
  rw [List.drop_drop] at h11
  obtain ⟨sC, fC, heqC, h12⟩ := mseq_lit_step _ _ _ _ _ _ _ _ h11
  rw [← drop_of_cons_eq _ _ _ _ heqC] at h12
  obtain ⟨v3, f13, _, _, _, h13⟩ := mseq_plus_run _ _ _ _ _ _ _ _ h12
  rw [List.drop_drop] at h13
  obtain ⟨a5, f14, _, _, _, h14⟩ := mseq_plus_run _ _ _ _ _ _ _ _ h13
  rw [List.drop_drop] at h14
  obtain ⟨d2, f15, _, _, _, h15⟩ := mseq_plus_run _ _ _ _ _ _ _ _ h14
  rw [List.drop_drop] at h15
  obtain ⟨a6, f16, _, _, _, h16⟩ := mseq_plus_run _ _ _ _ _ _ _ _ h15
  rw [List.drop_drop] at h16
  obtain ⟨w1, f17, _, _, _, h17⟩ := mseq_plus_run _ _ _ _ _ _ _ _ h16
  rw [List.drop_drop] at h17
  obtain ⟨a7, f18, _, _, _, h18⟩ := mseq_plus_run _ _ _ _ _ _ _ _ h17
  rw [List.drop_drop] at h18
  obtain ⟨w2, f19, _, _, _, h19⟩ := mseq_plus_run _ _ _ _ _ _ _ _ h18
  rw [List.drop_drop] at h19
  obtain ⟨a8, f20, _, _, _, h20⟩ := mseq_plus_run _ _ _ _ _ _ _ _ h19
  rw [List.drop_drop] at h20
  obtain ⟨jc, f21, hjc1, hjclen, hjcdig, h21⟩ := mseq_grpInt _ _ _ _ _ _ _ h20
  rw [List.drop_drop] at h21
  obtain ⟨a9, f22, _, _, _, h22⟩ := mseq_plus_run _ _ _ _ _ _ _ _ h21
  rw [List.drop_drop] at h22
  obtain ⟨ju, f23, hju1, hjulen, hjushape, h23⟩ := mseq_grpDec _ _ _ _ _ _ _ h22
  rw [List.drop_drop] at h23
  obtain ⟨st1, f24, _, _, h24⟩ := mseq_star_run _ _ _ _ _ _ _ _ h23
  rw [List.drop_drop] at h24
  obtain ⟨sD, fD, heqD, h25⟩ := mseq_lit_step _ _ _ _ _ _ _ _ h24
  rw [← drop_of_cons_eq _ _ _ _ heqD] at h25
  obtain ⟨sE, fE, heqE, h26⟩ := mseq_lit_step _ _ _ _ _ _ _ _ h25
  rw [← drop_of_cons_eq _ _ _ _ heqE] at h26
  obtain ⟨sF, fF, heqF, h27⟩ := mseq_lit_step _ _ _ _ _ _ _ _ h26
  rw [← drop_of_cons_eq _ _ _ _ heqF] at h27
  obtain ⟨a10, f28, _, _, _, h28⟩ := mseq_plus_run _ _ _ _ _ _ _ _ h27
  rw [List.drop_drop] at h28
  obtain ⟨jt, f29, hjt1, hjtlen, hjtdig, h29⟩ := mseq_grpInt _ _ _ _ _ _ _ h28
  rw [List.drop_drop] at h29
  obtain ⟨st2, f30, _, _, h30⟩ := mseq_star_run _ _ _ _ _ _ _ _ h29
  rw [List.drop_drop] at h30
  obtain ⟨sG, fG, heqG, h31⟩ := mseq_lit_step _ _ _ _ _ _ _ _ h30
  rw [← drop_of_cons_eq _ _ _ _ heqG] at h31
  obtain ⟨sH, fH, heqH, h32⟩ := mseq_lit_step _ _ _ _ _ _ _ _ h31
  rw [← drop_of_cons_eq _ _ _ _ heqH] at h32
  obtain ⟨sI, fI, heqI, h33⟩ := mseq_lit_step _ _ _ _ _ _ _ _ h32
  rw [← drop_of_cons_eq _ _ _ _ heqI] at h33
  obtain ⟨a11, f34, _, _, _, h34⟩ := mseq_plus_run _ _ _ _ _ _ _ _ h33
  rw [List.drop_drop] at h34
  obtain ⟨jp, f35, hjp1, hjplen, hjpshape, h35⟩ := mseq_grpDec _ _ _ _ _ _ _ h34
  rw [List.drop_drop] at h35
  obtain ⟨sJ, fJ, heqJ, h36⟩ := mseq_lit_step _ _ _ _ _ _ _ _ h35
  rw [← drop_of_cons_eq _ _ _ _ heqJ] at h36
  have hres := mseq_nil_end _ _ _ _ _ _ h36
  rw [hres]
  simp only [List.nil_append, List.cons_append, List.append_assoc]
  simp only [List.map_cons, List.map_nil, capStr_take]
  have hcchunks := pyIntN_of_digits _ (take_ne_nil_of_le _ _ hjc1 hjclen) hjcdig
  have hctotal := pyIntN_of_digits _ (take_ne_nil_of_le _ _ hjt1 hjtlen) hjtdig
  obtain ⟨ua, ub, huane, hubne, huad, hubd, hueq⟩ := hjushape
  obtain ⟨pa, pb, hpane, hpbne, hpad, hpbd, hpeq⟩ := hjpshape
  have hused := pyFloat_of_shape ua ub huane huad hubd
  have hpct := pyFloat_of_shape pa pb hpane hpad hpbd
  rw [hueq, hpeq]
  simp only [rowUpdates, pyInt, hcchunks, hctotal, hused, hpct, Option.map_some]
  rfl

theorem scanAllAux_mem (p : List RTok) :
    ∀ (fuel : Nat) (s : List Char) (pos : Nat) (capsP : List (Nat × Nat)),
    capsP ∈ scanAllAux p fuel s pos →
    ∃ k fuel2 en, mseq fuel2 p (s.drop k) (pos + k) [] [] = some (en, capsP) := by
  intro fuel
  induction fuel with
  | zero =>
    intro s pos capsP h
    exact absurd h (List.not_mem_nil _)
  | succ fuel ih =>
    intro s pos capsP h
    simp only [scanAllAux] at h
    cases hm : mseq (p.length + s.length + 1) p s pos [] [] with
    | some r =>
      obtain ⟨en0, caps0⟩ := r
      rw [hm] at h
      dsimp only at h
      by_cases hlt : pos < en0
      · rw [if_pos hlt] at h
        rcases List.mem_cons.mp h with heq | hrec
        · subst heq
          exact ⟨0, p.length + s.length + 1, en0, by simpa using hm⟩
        · obtain ⟨k2, fuel2, en2, h2⟩ := ih (s.drop (en0 - pos)) en0 capsP hrec
          rw [List.drop_drop] at h2
          refine ⟨en0 - pos + k2, fuel2, en2, ?_⟩
          rw [show pos + (en0 - pos + k2) = en0 + k2 by omega]
          exact h2
      · rw [if_neg hlt] at h
        cases s with
        | nil =>
          have heq : capsP = caps0 := by simpa using h
          subst heq
          exact ⟨0, _, en0, by simpa using hm⟩
        | cons c s2 =>
          rcases List.mem_cons.mp h with heq | hrec
          · subst heq
            exact ⟨0, _, en0, by simpa using hm⟩
          · obtain ⟨k2, fuel2, en2, h2⟩ := ih s2 (pos + 1) capsP hrec
            refine ⟨k2 + 1, fuel2, en2, ?_⟩
            rw [show pos + (k2 + 1) = pos + 1 + k2 by omega]
            exact h2
    | none =>
      rw [hm] at h
      dsimp only at h
      cases s with
      | nil => exact absurd h (List.not_mem_nil _)
      | cons c s2 =>
        obtain ⟨k2, fuel2, en2, h2⟩ := ih s2 (pos + 1) capsP h
        refine ⟨k2 + 1, fuel2, en2, ?_⟩
        rw [show pos + (k2 + 1) = pos + 1 + k2 by omega]
        exact h2

/-- Every row tuple found by the chunkserver pattern unpacks and
converts without failure. -/
theorem reFindall_patCS_row_ok (text : String) (caps : List String)
    (hmem : caps ∈ reFindall patCS text) : (rowUpdates caps).isSome = true := by
  simp only [reFindall, List.mem_map] at hmem
  obtain ⟨capsP, hmemP, hmap⟩ := hmem
  obtain ⟨k, fuel2, en, h2⟩ := scanAllAux_mem patCS _ text.data 0 capsP hmemP
  rw [show (0 : Nat) + k = k by omega] at h2
  have hrow := mseq_patCS_row_ok text.data fuel2 k (en, capsP) h2
  rw [← hmap]
  exact hrow

theorem csLoop_fst_of_rows_ok (rows : List (List String)) (r : Registry)
    (h : ∀ caps ∈ rows, (rowUpdates caps).isSome = true) :
    (csLoop rows r).1 = true := by
  induction rows generalizing r with
  | nil => rfl
  | cons caps rest ih =>
    have hhead := h caps (List.mem_cons_self caps rest)
    simp only [csLoop]
    cases hru : rowUpdates caps with
    | none =>
      rw [hru] at hhead
      exact absurd hhead (by simp)
    | some u =>
      dsimp only
      exact ih (applyUpdates u r) (fun c hc => h c (List.mem_cons_of_mem caps hc))

/-- The chunkserver collector succeeds on every nonempty command
output: a matched row always unpacks and converts, and zero matched
rows also yield success. -/
theorem collectChunkserverMetrics_fst (s : String) (r : Registry) (hs : s ≠ "") :
    (collectChunkserverMetrics (some s) r).1 = true := by
  show (if s = "" then (false, r) else csLoop (reFindall patCS s) r).1 = true
  rw [if_neg hs]
  exact csLoop_fst_of_rows_ok (reFindall patCS s) r
    (fun caps hc => reFindall_patCS_row_ok s caps hc)

/-- C9: a collector succeeds exactly on nonempty command output.  A
missing output and an empty output both yield the failure outcome with
the registry untouched, for the system and the chunkserver collector
alike; any nonempty output makes the system collector succeed whatever
the rules matched; any nonempty output makes the chunkserver collector
succeed, whether rows matched or not; and a nonempty output in which no
row matches succeeds with no write at all. -/
theorem c9_success_iff_nonempty_output :
    (∀ r : Registry, collectSystemMetrics none r = (false, r)) ∧
    (∀ r : Registry, collectSystemMetrics (some ("")) r = (false, r)) ∧
    (∀ (s : String) (r : Registry), s ≠ "" →
      (collectSystemMetrics (some s) r).1 = true) ∧
    (∀ r : Registry, collectChunkserverMetrics none r = (false, r)) ∧
    (∀ r : Registry, collectChunkserverMetrics (some ("")) r = (false, r)) ∧
    (∀ (s : String) (r : Registry), s ≠ "" →
      (collectChunkserverMetrics (some s) r).1 = true) ∧
    (∀ r : Registry,
      collectChunkserverMetrics (some ("no chunkservers connected")) r =
        (true, r)) := by
  refine ⟨fun r => rfl, fun r => rfl, ?_, fun r => rfl, fun r => rfl,
    fun s r hs => collectChunkserverMetrics_fst s r hs, fun r => ?_⟩
  · intro s r hs
    simp [collectSystemMetrics, hs]
  · have h : reFindall patCS ("no chunkservers connected") = [] := by decide
    show (if ("no chunkservers connected" : String) = "" then (false, r)
      else csLoop (reFindall patCS ("no chunkservers connected")) r) = (true, r)
    rw [if_neg (by decide), h]
    rfl

/-- Witness for C9: a nonempty one-character output makes both
collectors report success. -/
theorem c9_success_iff_nonempty_output_witness :
    ("x" : String) ≠ "" ∧
    (collectSystemMetrics (some ("x")) emptyRegistry).1 = true ∧
    (collectChunkserverMetrics (some ("x")) emptyRegistry).1 = true :=
  ⟨by decide,
    c9_success_iff_nonempty_output.2.2.1 ("x") emptyRegistry (by decide),
    c9_success_iff_nonempty_output.2.2.2.2.2.1 ("x") emptyRegistry (by decide)⟩
